import Mathlib

/-!
# Verification of the quorum-cli session orchestration layer

A shallow embedding, in Lean 4, of the core data model and operations of the
quorum-cli repository: method validation and role assignment (`agents.py`,
replicated verbatim inside `tests/test_agents.py`), the free-text section
parsers (`team.py`, replicated inside `tests/test_parsing.py`), the client
resource pool (`models.py`), the parallel-phase failure containment
(`methods/standard.py`), the session controller (`ipc.py`) and the protocol
version compatibility check (`ipc.py`).  Python strings are embedded as
`List Char`; Python `re.search` calls are embedded as explicit leftmost-match
scanning functions with the same semantics on the fixed patterns used by the
code.
-/

namespace Quorum

/- ## Character and string machinery

Python's `re.IGNORECASE` compares characters case-insensitively and `\s`
matches ASCII whitespace; `str.strip()` removes leading and trailing
whitespace. -/

/-- Case-insensitive character equality, as used by `re.IGNORECASE`. -/
def lcEq (a b : Char) : Bool := a.toLower == b.toLower

/-- ASCII whitespace, the characters matched by Python's `\s` on ASCII text. -/
def isSpaceChar (c : Char) : Bool :=
  c == ' ' || c == '\t' || c == '\n' || c == '\r' || c == '\x0b' || c == '\x0c'

/-- `matchCI pat s` : `pat` is a case-insensitive prefix of `s`. -/
def matchCI : List Char → List Char → Bool
  | [], _ => true
  | _ :: _, [] => false
  | p :: ps, c :: cs => lcEq p c && matchCI ps cs

/-- `containsCI pat s` : `pat` occurs case-insensitively somewhere in `s`
(`re.search` succeeds on the literal pattern `pat`). -/
def containsCI (pat : List Char) : List Char → Bool
  | [] => pat.isEmpty
  | c :: rest => matchCI pat (c :: rest) || containsCI pat rest

/-- Python `str.strip()` restricted to ASCII whitespace. -/
def stripList (s : List Char) : List Char :=
  ((s.dropWhile isSpaceChar).reverse.dropWhile isSpaceChar).reverse

/-- Try each pattern in engine order at the current position; on the first
case-insensitive prefix match return the suffix after the matched pattern. -/
def tryPats (pats : List (List Char)) (s : List Char) : Option (List Char) :=
  match pats with
  | [] => none
  | p :: ps => if matchCI p s then some (s.drop p.length) else tryPats ps s

/-- Characters of the lazy group after its mandatory first character: stop at
the first position where one of the stop labels matches (the regex lookahead),
otherwise run to the end of the text. -/
def takeUntilStop (stops : List (List Char)) : List Char → List Char
  | [] => []
  | c :: rest =>
    if stops.any (fun p => matchCI p (c :: rest)) then []
    else c :: takeUntilStop stops rest

/-- Value of `group(1).strip()` for a regex of the shape
`LABEL\s*(.+?)(?=STOP1|STOP2|$)` (with `DOTALL`), given the text after the
matched label.  The greedy `\s*` skips the whitespace; the lazy group takes at
least one character and stops at the first stop label or the end; if only
whitespace follows the label, backtracking gives the group a whitespace
character, which `strip()` reduces to the empty string. -/
def extractField (stops : List (List Char)) (suffix : List Char) : List Char :=
  match suffix.dropWhile isSpaceChar with
  | [] => []
  | c :: rest => stripList (c :: takeUntilStop stops rest)

/-- `re.search` for a pattern of shape `LABELS\s*(.+?)(?=STOPS|$)`: scan left to
right for the leftmost position where a label matches and at least one
character follows it (otherwise the group cannot match and the engine moves
on), and return the extracted, stripped group. -/
def searchField (pats stops : List (List Char)) : List Char → Option (List Char)
  | [] => none
  | c :: rest =>
    match tryPats pats (c :: rest) with
    | some suffix =>
      if suffix.isEmpty then searchField pats stops rest
      else some (extractField stops suffix)
    | none => searchField pats stops rest

/- ## Free-text parsers (`team.py`, replicated in `tests/test_parsing.py`) -/

/-- Label alternatives of `AGREEMENTS?:` in engine order. -/
def agreementsPats : List (List Char) := ["agreements:".toList, "agreement:".toList]

/-- Lookahead labels of the agreements field: `(?=DISAGREEMENTS?:|MISSING:|$)`. -/
def agreementsStops : List (List Char) :=
  ["disagreements:".toList, "disagreement:".toList, "missing:".toList]

/-- Label alternatives of `DISAGREEMENTS?:` in engine order. -/
def disagreementsPats : List (List Char) :=
  ["disagreements:".toList, "disagreement:".toList]

/-- Lookahead labels of the disagreements field: `(?=AGREEMENTS?:|MISSING:|$)`. -/
def disagreementsStops : List (List Char) :=
  ["agreements:".toList, "agreement:".toList, "missing:".toList]

/-- Label of `MISSING:`. -/
def missingPats : List (List Char) := ["missing:".toList]

/-- Lookahead labels of the missing field: `(?=AGREEMENTS?:|DISAGREEMENTS?:|$)`. -/
def missingStops : List (List Char) :=
  ["agreements:".toList, "agreement:".toList,
   "disagreements:".toList, "disagreement:".toList]

/-- Structured critique, as returned by `parse_critique`. -/
structure CritiqueResponse where
  source : List Char
  agreements : List Char
  disagreements : List Char
  missing : List Char
deriving DecidableEq, Repr

/-- `parse_critique` from `team.py` (replicated in `tests/test_parsing.py`):
extract the three labeled sections; if all three come out empty, fall back to
using the raw content as the agreements field. -/
def parse_critique (source content : List Char) : CritiqueResponse :=
  let ag := (searchField agreementsPats agreementsStops content).getD []
  let dg := (searchField disagreementsPats disagreementsStops content).getD []
  let ms := (searchField missingPats missingStops content).getD []
  if ag.isEmpty && dg.isEmpty && ms.isEmpty then
    { source := source, agreements := content, disagreements := [], missing := [] }
  else
    { source := source, agreements := ag, disagreements := dg, missing := ms }

/-- Scan for `CONFIDENCE:\s*(HIGH|MEDIUM|LOW)` with `IGNORECASE`: at each
position try the label, skip whitespace, try the three alternatives; the match
value is uppercased, so the result is the canonical uppercase form. -/
def searchConfidence : List Char → Option (List Char)
  | [] => none
  | c :: rest =>
    if matchCI "confidence:".toList (c :: rest) then
      let body := ((c :: rest).drop "confidence:".toList.length).dropWhile isSpaceChar
      if matchCI "high".toList body then some "HIGH".toList
      else if matchCI "medium".toList body then some "MEDIUM".toList
      else if matchCI "low".toList body then some "LOW".toList
      else searchConfidence rest
    else searchConfidence rest

/-- Final position of one participant, as returned by `parse_final_position`. -/
structure FinalPosition where
  source : List Char
  position : List Char
  confidence : List Char
deriving DecidableEq, Repr

/-- `parse_final_position` from `team.py` (replicated in
`tests/test_parsing.py`): `position` defaults to the whole content when the
`POSITION:` label does not match; `confidence` defaults to `MEDIUM` when
`CONFIDENCE:` is absent or carries an unrecognized value. -/
def parse_final_position (source content : List Char) : FinalPosition :=
  let position :=
    match searchField ["position:".toList] ["confidence:".toList] content with
    | some p => p
    | none => content
  let confidence := (searchConfidence content).getD "MEDIUM".toList
  { source := source, position := position, confidence := confidence }

/-- Synthesis result shape (consensus, synthesis, differences). -/
structure SynthesisResult where
  consensus : List Char
  synthesis : List Char
  differences : List Char
  synthesizer_model : List Char
deriving DecidableEq, Repr

/-- Modelled from the spec: `_parse_synthesis` in `quorum/team.py` is not under
`src/` (only its tests are).  Per the spec's free-text parsing contract, the
parser scans case-insensitively for its section labels (`CONSENSUS:`,
`SYNTHESIS:`, `DIFFERENCES:`), extracting the text between a matched label and
the next matched label or the end; if none of its labels are found anywhere in
the text, the entire raw text is used verbatim as the message kind's primary
field, which for synthesis is the `synthesis` field. -/
def parse_synthesis (content model : List Char) : SynthesisResult :=
  let cons := (searchField ["consensus:".toList]
    ["synthesis:".toList, "differences:".toList] content).getD []
  let syn := (searchField ["synthesis:".toList]
    ["consensus:".toList, "differences:".toList] content).getD []
  let dif := (searchField ["differences:".toList]
    ["consensus:".toList, "synthesis:".toList] content).getD []
  if cons.isEmpty && syn.isEmpty && dif.isEmpty then
    { consensus := [], synthesis := content, differences := [],
      synthesizer_model := model }
  else
    { consensus := cons, synthesis := syn, differences := dif,
      synthesizer_model := model }

/- ## Method validation and role assignment (`agents.py`, replicated in
`tests/test_agents.py`) -/

/-- `METHOD_REQUIREMENTS` from `agents.py`: per-method minimum participant
count and evenness requirement; unknown methods have no entry. -/
def METHOD_REQUIREMENTS (method : String) : Option (Nat × Bool) :=
  if method = "standard" then some (2, false)
  else if method = "oxford" then some (2, true)
  else if method = "advocate" then some (3, false)
  else if method = "socratic" then some (2, false)
  else if method = "delphi" then some (3, false)
  else if method = "brainstorm" then some (2, false)
  else if method = "tradeoff" then some (2, false)
  else none

/-- Python `str.capitalize()`: first character uppercased, rest lowercased. -/
def capitalizeStr (s : String) : String :=
  match s.toList with
  | [] => ""
  | c :: rest => String.mk (c.toUpper :: rest.map Char.toLower)

/-- `validate_method_model_count` from `agents.py`: unknown methods pass;
known methods are checked against their minimum and, for Oxford, evenness. -/
def validate_method_model_count (method : String) (num_models : Nat) :
    Bool × Option String :=
  match METHOD_REQUIREMENTS method with
  | none => (true, none)
  | some (minCount, evenOnly) =>
    if num_models < minCount then
      (false, some (capitalizeStr method ++ " requires at least "
        ++ toString minCount ++ " models"))
    else if evenOnly && num_models % 2 != 0 then
      (false,
       some "Oxford requires an even number of models for balanced FOR/AGAINST teams")
    else (true, none)

/-- Key lookup in a role-assignment dictionary, embedded as an ordered
association list (`"key" in assignments` / `assignments["key"]`). -/
def lookupKey (k : String) : List (String × List String) → Option (List String)
  | [] => none
  | (k', v) :: rest => if k = k' then some v else lookupKey k rest

/-- Python's `"key" in assignments` on the embedded dictionary. -/
def containsKey (k : String) (a : List (String × List String)) : Bool :=
  (lookupKey k a).isSome

/-- `swap_teams` from `agents.py`: for `FOR`/`AGAINST` exchange the two lists;
for `Defenders`/`Advocate` the new defenders are the old advocate followed by
all but the last old defender (`advocate + defenders[:-1]`), and the new
advocate is the last old defender (`[defenders[-1]] if defenders else
advocate`); all other shapes are returned unchanged. -/
def swap_teams (a : List (String × List String)) : List (String × List String) :=
  if containsKey "FOR" a && containsKey "AGAINST" a then
    [("FOR", (lookupKey "AGAINST" a).getD []),
     ("AGAINST", (lookupKey "FOR" a).getD [])]
  else if containsKey "Defenders" a && containsKey "Advocate" a then
    let ds := (lookupKey "Defenders" a).getD []
    let adv := (lookupKey "Advocate" a).getD []
    [("Defenders", adv ++ ds.dropLast),
     ("Advocate", match ds.getLast? with | some d => [d] | none => adv)]
  else a

/- ## Client resource pool (`models.py`) -/

/-- Modelled from the spec: `quorum/models.py` (class `ClientPool`) is not
under `src/` (only `tests/test_client_pool.py` is).  The pool is a bounded,
recency-ordered map from model id to client handle; the exact
`MAX_POOL_SIZE` value is not visible in `src/`, so the capacity is fixed here
as a named constant; no claim depends on its value. -/
def MAX_POOL_SIZE : Nat := 10

/-- Pool state: the clients map ordered by recency (head = least recently
used), a log of every handle on which a per-handle close routine was invoked,
and a count of underlying client creations.  Handles are identified by their
creation number. -/
structure PoolState where
  clients : List (String × Nat)
  closedLog : List Nat
  creations : Nat
deriving DecidableEq, Repr

/-- Lookup of a model id in the clients map. -/
def lookupPool (k : String) : List (String × Nat) → Option Nat
  | [] => none
  | (k', v) :: rest => if k' = k then some v else lookupPool k rest

/-- Drop every entry for a model id from the clients map. -/
def removeKey (k : String) (l : List (String × Nat)) : List (String × Nat) :=
  l.filter (fun e => e.1 != k)

/-- Modelled from the spec: `ClientPool.get_client`.  If the key is present,
mark it most-recently-used and return the existing handle; if absent, create a
fresh handle (one underlying creation), insert it at the most-recent end, and
if the insertion exceeds capacity evict the oldest entry by simply forgetting
the reference — no close routine is invoked, so `closedLog` is untouched. -/
def getClient (k : String) (s : PoolState) : Nat × PoolState :=
  match lookupPool k s.clients with
  | some h =>
    (h, { s with clients := removeKey k s.clients ++ [(k, h)] })
  | none =>
    let h := s.creations
    let inserted := s.clients ++ [(k, h)]
    let clients := if MAX_POOL_SIZE < inserted.length then inserted.tail else inserted
    (h, { clients := clients, closedLog := s.closedLog, creations := s.creations + 1 })

/-- Modelled from the spec: `ClientPool.remove_client` — unconditionally drop
one entry, idempotent, no error when the key is absent, and no close routine
invoked on the dropped handle. -/
def removeClient (k : String) (s : PoolState) : PoolState :=
  { s with clients := removeKey k s.clients }

/-- Modelled from the spec: `ClientPool.close_all` — clear every entry without
calling close on any handle (handles of one provider family may share a
transport); any error its own cleanup raises is swallowed, so the operation is
total. -/
def closeAll (s : PoolState) : PoolState :=
  { s with clients := [] }

/-- One pool operation. -/
inductive PoolOp
  | get (k : String)
  | remove (k : String)
  | closeAllOp
deriving DecidableEq

/-- Apply one pool operation to a pool state. -/
def applyOp (s : PoolState) : PoolOp → PoolState
  | .get k => (getClient k s).2
  | .remove k => removeClient k s
  | .closeAllOp => closeAll s

/-- Run a sequence of pool operations. -/
def runOps (s : PoolState) : List PoolOp → PoolState
  | [] => s
  | op :: rest => runOps (applyOp s op) rest

/- ## Single-flight creation (`models.py`, concurrent `get_client`)

Modelled from the spec: handle creation for a miss happens outside the lock
but is de-duplicated via a per-key in-flight marker, so concurrent callers for
the same absent key observe exactly one creation and all receive the same
handle.  The interleaving of N callers requesting one absent key is embedded
as a small transition system: each caller atomically (under the pool lock)
either finds the entry, or claims the in-flight marker and then creates. -/

/-- Program counter of one caller of `get_client` for the shared key. -/
inductive CallerPC
  | start
  | creating
  | done (h : Nat)
deriving DecidableEq, Repr

/-- Global state of the single-flight protocol for one key: the pool entry for
that key, the per-key in-flight marker, the number of underlying creations so
far, and every caller's program counter. -/
structure SFState where
  entry : Option Nat
  inflight : Bool
  creations : Nat
  pcs : List CallerPC
deriving DecidableEq, Repr

/-- Initial state: key absent, no creation in flight, N callers ready. -/
def initSF (n : Nat) : SFState :=
  { entry := none, inflight := false, creations := 0, pcs := List.replicate n .start }

/-- One atomic step of the single-flight protocol.  A caller at `start` whose
key is present takes the existing handle; a caller at `start` seeing the key
absent and no creation in flight claims the marker and starts creating; the
creating caller finishes by inserting the fresh handle, clearing the marker
and taking that handle.  A caller at `start` while another creation is in
flight simply waits (no transition). -/
inductive SFStep : SFState → SFState → Prop
  | hit (s : SFState) (i : Nat) (h : Nat)
      (hi : s.pcs.get? i = some .start) (he : s.entry = some h) :
      SFStep s { s with pcs := s.pcs.set i (.done h) }
  | claim (s : SFState) (i : Nat)
      (hi : s.pcs.get? i = some .start) (he : s.entry = none)
      (hf : s.inflight = false) :
      SFStep s { s with inflight := true, pcs := s.pcs.set i .creating }
  | create (s : SFState) (i : Nat)
      (hi : s.pcs.get? i = some .creating) :
      SFStep s { s with entry := some s.creations, inflight := false,
                        creations := s.creations + 1,
                        pcs := s.pcs.set i (.done s.creations) }

/-- Reachability of the single-flight protocol. -/
def SFReach (n : Nat) (s : SFState) : Prop :=
  Relation.ReflTransGen SFStep (initSF n) s

/-- Invariant of the single-flight protocol: when no creation is in flight
nobody is creating; creators are unique and run only while the entry is
absent; the entry is filled by exactly the first creation; every finished
caller holds handle 0 and the entry is filled. -/
def SFInv (s : SFState) : Prop :=
  (s.inflight = false → ∀ i, s.pcs.get? i ≠ some .creating)
  ∧ (∀ i j, s.pcs.get? i = some .creating → s.pcs.get? j = some .creating → i = j)
  ∧ ((∃ i, s.pcs.get? i = some .creating) → s.entry = none)
  ∧ ((s.entry = none ∧ s.creations = 0) ∨ (s.entry = some 0 ∧ s.creations = 1))
  ∧ (∀ i h, s.pcs.get? i = some (.done h) → h = 0 ∧ s.entry = some 0)

/- ## Parallel-phase failure containment (`methods/standard.py`) -/

/-- Maximum length of the error message inside a placeholder. -/
def ERROR_MESSAGE_MAX_LENGTH : Nat := 500

/-- The placeholder substituted for a failing participant's output:
`"[Error: <message>]"` with the message truncated to at most 500 characters. -/
def errorPlaceholder (msg : List Char) : List Char :=
  "[Error: ".toList ++ msg.take ERROR_MESSAGE_MAX_LENGTH ++ "]".toList

/-- Outcome of one participant's outbound call: either the produced content or
an exception carrying a message. -/
inductive CallOutcome
  | ok (content : List Char)
  | err (msg : List Char)
deriving DecidableEq, Repr

/-- Modelled from the spec: `_run_phase1_parallel` (and the other parallel
phases) in `quorum/methods/standard.py`, not under `src/` (only
`tests/test_team_error_handling.py` is).  Each participant's call is awaited
and any exception is caught at that participant's granularity: the failing
participant's output is replaced by the bounded placeholder and its pool entry
is removed via `remove_client`; successful participants' outputs are used
unchanged; the phase always yields one result per participant. -/
def runParallelPhase (participants : List (String × CallOutcome)) (pool : PoolState) :
    List (String × List Char) × PoolState :=
  (participants.map fun p =>
     (p.1, match p.2 with
           | .ok c => c
           | .err m => errorPlaceholder m),
   participants.foldl
     (fun acc p => match p.2 with
                   | .err _ => removeClient p.1 acc
                   | .ok _ => acc)
     pool)

/- ## Session controller (`ipc.py`) -/

/-- A discussion event emitted by the method engine, reduced to what the
controller inspects: phase markers (with their ordinal and the method's total
phase count) versus everything else. -/
inductive DEvent
  | marker (phase totalPhases : Nat)
  | content (text : String)
deriving DecidableEq, Repr

/-- One item of the controller's view of the engine stream: an event is
yielded, an exception escapes the engine at this point, or the consuming task
is forcibly cancelled mid-await. -/
inductive StreamItem
  | ev (e : DEvent)
  | exn (msg : String)
  | taskCancelled
deriving DecidableEq, Repr

/-- Outcome of one bounded pause wait at a phase boundary: a resume request
set the pause signal, a cancel request set the cancel flag and the pause
signal, or the wait timed out. -/
inductive WaitOutcome
  | resumed
  | cancelled
  | timedOut
deriving DecidableEq, Repr

/-- Notifications the controller emits toward the protocol front. -/
inductive Notif
  | relayed (e : DEvent)
  | phaseBoundary (phase : Nat)
  | pauseTimeout (seconds : Nat)
  | completed (eventCount : Nat)
  | errored (msg : String)
  | cancelledNotif
deriving DecidableEq, Repr

/-- Terminal outcome of a discussion. -/
inductive Outcome
  | completed
  | errored
  | cancelled
deriving DecidableEq, Repr

/-- Modelled from the spec: the consumption loop of `ipc.py`'s session
controller, not under `src/` (only `tests/test_ipc_discussion_control.py`
is).  For each emitted event, relay it; on a phase marker that is not the
final phase, emit a phase-boundary notification and wait on the pause signal
with a bounded timeout — a resume continues, a cancel terminates the
discussion as cancelled, and a timeout emits a pause-timeout notification
carrying the configured timeout duration and continues as an implicit resume.
Normal exhaustion emits a completed notification with the total event count;
an exception from the engine emits an errored notification with its message;
forced cancellation of the consuming task ends the loop as cancelled.
`waits` gives the environment's outcome of the k-th pause wait. -/
def consumeLoop (pauseTimeout : Nat) (waits : Nat → WaitOutcome) :
    List StreamItem → Nat → Nat → List Notif × Outcome
  | [], count, _ => ([.completed count], .completed)
  | .exn m :: _, _, _ => ([.errored m], .errored)
  | .taskCancelled :: _, _, _ => ([.cancelledNotif], .cancelled)
  | .ev e :: rest, count, widx =>
    match e with
    | .marker phase total =>
      if phase < total then
        match waits widx with
        | .resumed =>
          let r := consumeLoop pauseTimeout waits rest (count + 1) (widx + 1)
          (.relayed e :: .phaseBoundary phase :: r.1, r.2)
        | .cancelled =>
          ([.relayed e, .phaseBoundary phase, .cancelledNotif], .cancelled)
        | .timedOut =>
          let r := consumeLoop pauseTimeout waits rest (count + 1) (widx + 1)
          (.relayed e :: .phaseBoundary phase :: .pauseTimeout pauseTimeout :: r.1, r.2)
      else
        let r := consumeLoop pauseTimeout waits rest (count + 1) widx
        (.relayed e :: r.1, r.2)
    | .content t =>
      let r := consumeLoop pauseTimeout waits rest (count + 1) widx
      (.relayed (.content t) :: r.1, r.2)

/-- The session state the admission mutex protects. -/
structure SessionState where
  busy : Bool
  cancelRequested : Bool
  pauseSet : Bool
deriving DecidableEq, Repr

/-- A JSON-RPC error object. -/
structure RpcError where
  code : Int
  message : String
deriving DecidableEq, Repr

/-- Result of a `run_discussion` request: rejected at admission, or admitted
and driven to a terminal outcome with the emitted notifications. -/
inductive RunResult
  | rejected (e : RpcError)
  | finished (notifs : List Notif) (outcome : Outcome)
deriving DecidableEq, Repr

/-- Modelled from the spec: `ipc.py`'s `run_discussion` handler, not under
`src/`.  Admission tries the discussion mutex without blocking: if it is held,
the request is rejected with application error `-32000` and a message
containing "already in progress" and no state changes.  On admission the
cancel flag is reset and the pause signal set to running; the stream is then
consumed; whatever the exit path — normal completion, an exception escaping
the engine, or forced cancellation of the consuming task — the mutex is
released in a guaranteed-run cleanup block, so the final state has
`busy = false`. -/
def run_discussion (st : SessionState) (pauseTimeout : Nat)
    (waits : Nat → WaitOutcome) (stream : List StreamItem) :
    RunResult × SessionState :=
  if st.busy then
    (.rejected { code := -32000, message := "Discussion already in progress" }, st)
  else
    let r := consumeLoop pauseTimeout waits stream 0 0
    (.finished r.1 r.2,
     { busy := false, cancelRequested := r.2 = Outcome.cancelled, pauseSet := true })

/-- Number of non-final phase boundaries in a stream (the pause points). -/
def countBoundaries : List StreamItem → Nat
  | [] => 0
  | .ev (.marker p t) :: rest => (if p < t then 1 else 0) + countBoundaries rest
  | _ :: rest => countBoundaries rest

/-- A stream in which the engine neither raises nor is the consuming task
cancelled: every item is a plain event. -/
def isPureEvents : List StreamItem → Bool
  | [] => true
  | .ev _ :: rest => isPureEvents rest
  | _ => false

/- ## Protocol version compatibility (`ipc.py`) -/

/-- Split a character list on the dot separator (Python `s.split(".")`),
preserving empty components. -/
def splitOnDot : List Char → List (List Char)
  | [] => [[]]
  | c :: rest =>
    let r := splitOnDot rest
    if c = '.' then [] :: r
    else
      match r with
      | [] => [[c]]
      | h :: t => (c :: h) :: t

/-- Parse a nonempty all-digit component as a decimal number (Python
`part.isdigit()` followed by `int(part)`). -/
def parseNatAux : List Char → Nat → Option Nat
  | [], acc => some acc
  | c :: rest, acc =>
    if '0' ≤ c ∧ c ≤ '9' then parseNatAux rest (acc * 10 + (c.toNat - '0'.toNat))
    else none

/-- Parse a version component: nonempty and all digits. -/
def parseNatList (s : List Char) : Option Nat :=
  match s with
  | [] => none
  | _ => parseNatAux s 0

/-- Modelled from the spec: the protocol version parsing inside
`_check_protocol_compatibility` in `quorum/ipc.py`, not under `src/` (only
`tests/test_protocol_version.py` is).  A version string is three dot-separated
numeric components (MAJOR.MINOR.PATCH). -/
def parseVersion (s : String) : Option (Nat × Nat × Nat) :=
  match splitOnDot s.toList with
  | [a, b, c] =>
    match parseNatList a, parseNatList b, parseNatList c with
    | some x, some y, some z => some (x, y, z)
    | _, _, _ => none
  | _ => none

/-- Modelled from the spec: `_check_protocol_compatibility` in
`quorum/ipc.py`, not under `src/`.  Comparing the frontend's protocol version
against the server's: an unparsable version yields an "invalid format"
warning; a major-component mismatch yields a warning mentioning the major
version; a minor-component difference yields a warning in either direction
(frontend newer or backend newer); versions that agree on major and minor
yield no warning. -/
def checkProtocolCompatibility (server : Nat × Nat × Nat) (frontend : String) :
    Option String :=
  match parseVersion frontend with
  | none => some ("Invalid protocol version format: " ++ frontend)
  | some (fMaj, fMin, _) =>
    if fMaj ≠ server.1 then
      some "Protocol major version mismatch between frontend and backend"
    else if server.2.1 < fMin then
      some "Frontend uses a newer protocol version; consider updating the backend"
    else if fMin < server.2.1 then
      some "Backend uses a newer protocol version; consider updating the frontend"
    else none

/- ## Helper lemmas -/

/-- `validate_method_model_count` unfolded at a known method. -/
theorem validate_eq_of_req (m : String) (k : Nat) (eo : Bool) (n : Nat)
    (h : METHOD_REQUIREMENTS m = some (k, eo)) :
    validate_method_model_count m n =
      if n < k then
        (false, some (capitalizeStr m ++ " requires at least "
          ++ toString k ++ " models"))
      else if eo && n % 2 != 0 then
        (false,
         some "Oxford requires an even number of models for balanced FOR/AGAINST teams")
      else (true, none) := by
  unfold validate_method_model_count
  rw [h]

/-- The per-method minimum participant counts of the seven known methods. -/
def methodMinima : List (String × Nat) :=
  [("standard", 2), ("oxford", 2), ("advocate", 3), ("socratic", 2),
   ("delphi", 3), ("brainstorm", 2), ("tradeoff", 2)]

/- ## C6 -/

/-- C6: for every known method, `validate` returns not-ok with a structured
reason when the participant count is below the method's minimum
(Standard/Oxford/Socratic/Brainstorm/Tradeoff minimum 2, Advocate/Delphi
minimum 3), Oxford additionally returns not-ok for every odd count, and every
count satisfying the method's requirements passes with no error. -/
theorem validate_method_specs (m : String) (k n : Nat)
    (hm : (m, k) ∈ methodMinima) :
    (n < k → (validate_method_model_count m n).1 = false ∧
             (validate_method_model_count m n).2 ≠ none)
  ∧ (m = "oxford" → n % 2 = 1 → (validate_method_model_count m n).1 = false ∧
             (validate_method_model_count m n).2 ≠ none)
  ∧ (k ≤ n → (m = "oxford" → n % 2 = 0) →
       validate_method_model_count m n = (true, none)) := by
  have main : ∀ (k' : Nat) (eo : Bool), METHOD_REQUIREMENTS m = some (k', eo) →
      (n < k' → (validate_method_model_count m n).1 = false ∧
                (validate_method_model_count m n).2 ≠ none)
    ∧ (eo = true → n % 2 = 1 → (validate_method_model_count m n).1 = false ∧
                (validate_method_model_count m n).2 ≠ none)
    ∧ (k' ≤ n → (eo = true → n % 2 = 0) →
         validate_method_model_count m n = (true, none)) := by
    intro k' eo h
    rw [validate_eq_of_req m k' eo n h]
    refine ⟨fun hlt => by simp [hlt], fun heo hodd => ?_, fun hge hev => ?_⟩
    · by_cases hlt : n < k'
      · simp [hlt]
      · simp [hlt, heo, hodd]
    · have hlt : ¬ n < k' := by omega
      rcases Bool.eq_false_or_eq_true eo with he | he
      · have h0 : n % 2 = 0 := hev he
        simp [hlt, he, h0]
      · simp [hlt, he]
  simp only [methodMinima, List.mem_cons, List.not_mem_nil, or_false,
    Prod.mk.injEq] at hm
  rcases hm with ⟨hm, hk⟩ | ⟨hm, hk⟩ | ⟨hm, hk⟩ | ⟨hm, hk⟩ | ⟨hm, hk⟩ |
    ⟨hm, hk⟩ | ⟨hm, hk⟩ <;> subst hm <;> subst hk
  · exact ⟨(main 2 false rfl).1, fun hox => absurd hox (by decide),
      fun hge hev => (main 2 false rfl).2.2 hge (by simp)⟩
  · exact ⟨(main 2 true rfl).1, fun _ hodd => (main 2 true rfl).2.1 rfl hodd,
      fun hge hev => (main 2 true rfl).2.2 hge (fun _ => hev rfl)⟩
  · exact ⟨(main 3 false rfl).1, fun hox => absurd hox (by decide),
      fun hge hev => (main 3 false rfl).2.2 hge (by simp)⟩
  · exact ⟨(main 2 false rfl).1, fun hox => absurd hox (by decide),
      fun hge hev => (main 2 false rfl).2.2 hge (by simp)⟩
  · exact ⟨(main 3 false rfl).1, fun hox => absurd hox (by decide),
      fun hge hev => (main 3 false rfl).2.2 hge (by simp)⟩
  · exact ⟨(main 2 false rfl).1, fun hox => absurd hox (by decide),
      fun hge hev => (main 2 false rfl).2.2 hge (by simp)⟩
  · exact ⟨(main 2 false rfl).1, fun hox => absurd hox (by decide),
      fun hge hev => (main 2 false rfl).2.2 hge (by simp)⟩

/-- Witness for C6: Oxford at 3 participants is rejected, at 4 accepted. -/
theorem validate_method_specs_witness :
    ((validate_method_model_count "oxford" 3).1 = false ∧
      (validate_method_model_count "oxford" 3).2 ≠ none)
  ∧ validate_method_model_count "oxford" 4 = (true, none) := by
  have h3 := validate_method_specs "oxford" 2 3 (by simp [methodMinima])
  have h4 := validate_method_specs "oxford" 2 4 (by simp [methodMinima])
  exact ⟨h3.2.1 rfl (by decide), h4.2.2 (by decide) (fun _ => by decide)⟩

/- ## C10 -/

/-- C10: every method name that is not one of the seven known methods passes
validation with no error for every participant count, including 1. -/
theorem validate_unknown_method (m : String) (n : Nat)
    (hm : m ∉ ["standard", "oxford", "advocate", "socratic", "delphi",
               "brainstorm", "tradeoff"]) :
    validate_method_model_count m n = (true, none) := by
  simp only [List.mem_cons, List.not_mem_nil, or_false, not_or] at hm
  obtain ⟨h1, h2, h3, h4, h5, h6, h7⟩ := hm
  unfold validate_method_model_count METHOD_REQUIREMENTS
  simp [h1, h2, h3, h4, h5, h6, h7]

/-- Witness for C10: an unknown method with a single participant passes. -/
theorem validate_unknown_method_witness :
    validate_method_model_count "unknown_method" 1 = (true, none) :=
  validate_unknown_method "unknown_method" 1 (by decide)

/- ## C7 -/

/-- C7: `swap_teams` exchanges the FOR and AGAINST lists of an Oxford
assignment (so swapping twice is the identity); for an Advocate assignment it
makes the last prior Defender the advocate while the former advocate joins
the Defenders; every role shape carrying neither the FOR/AGAINST pair nor the
Defenders/Advocate pair is returned unchanged. -/
theorem swap_teams_spec :
    (∀ f g : List String,
       swap_teams [("FOR", f), ("AGAINST", g)] = [("FOR", g), ("AGAINST", f)]
       ∧ swap_teams (swap_teams [("FOR", f), ("AGAINST", g)])
           = [("FOR", f), ("AGAINST", g)])
  ∧ (∀ (ds adv : List String) (h : ds ≠ []),
       swap_teams [("Defenders", ds), ("Advocate", adv)]
         = [("Defenders", adv ++ ds.dropLast), ("Advocate", [ds.getLast h])])
  ∧ (∀ a : List (String × List String),
       (lookupKey "FOR" a = none ∨ lookupKey "AGAINST" a = none) →
       (lookupKey "Defenders" a = none ∨ lookupKey "Advocate" a = none) →
       swap_teams a = a) := by
  refine ⟨fun f g => ⟨rfl, rfl⟩, fun ds adv h => ?_, fun a h1 h2 => ?_⟩
  · have e : swap_teams [("Defenders", ds), ("Advocate", adv)]
        = [("Defenders", adv ++ ds.dropLast),
           ("Advocate", match ds.getLast? with | some d => [d] | none => adv)] := rfl
    rw [e, List.getLast?_eq_getLast ds h]
  · have c1 : (containsKey "FOR" a && containsKey "AGAINST" a) = false := by
      rcases h1 with h | h <;> simp [containsKey, h]
    have c2 : (containsKey "Defenders" a && containsKey "Advocate" a) = false := by
      rcases h2 with h | h <;> simp [containsKey, h]
    simp [swap_teams, c1, c2]

/-- Witness for C7: concrete Oxford and Advocate swaps and a Delphi
identity. -/
theorem swap_teams_spec_witness :
    swap_teams [("FOR", ["m1"]), ("AGAINST", ["m2"])]
      = [("FOR", ["m2"]), ("AGAINST", ["m1"])]
  ∧ swap_teams [("Defenders", ["d1", "d2"]), ("Advocate", ["a"])]
      = [("Defenders", ["a", "d1"]), ("Advocate", ["d2"])]
  ∧ swap_teams [("Panelists", ["m1", "m2"])] = [("Panelists", ["m1", "m2"])] := by
  refine ⟨(swap_teams_spec.1 ["m1"] ["m2"]).1, ?_, ?_⟩
  · have h := swap_teams_spec.2.1 ["d1", "d2"] ["a"] (by decide)
    simpa using h
  · exact swap_teams_spec.2.2 [("Panelists", ["m1", "m2"])]
      (Or.inl rfl) (Or.inl rfl)

/- ## C9 -/

/-- C9: with a parsable frontend protocol version, matching versions produce
no warning; a major-component mismatch produces a warning mentioning "major
version"; a minor-component difference produces a warning; a frontend version
newer than the server's (by major or by minor) produces a warning. -/
theorem protocol_version_compatibility (sv fv : Nat × Nat × Nat) (f : String)
    (hp : parseVersion f = some fv) :
    (fv = sv → checkProtocolCompatibility sv f = none)
  ∧ (fv.1 ≠ sv.1 → ∃ w, checkProtocolCompatibility sv f = some w ∧
       containsCI "major version".toList w.toList = true)
  ∧ (fv.1 = sv.1 → fv.2.1 ≠ sv.2.1 →
       (checkProtocolCompatibility sv f).isSome = true)
  ∧ ((sv.1 < fv.1 ∨ (fv.1 = sv.1 ∧ sv.2.1 < fv.2.1)) →
       (checkProtocolCompatibility sv f).isSome = true) := by
  obtain ⟨fa, fb, fc⟩ := fv
  have hcheck : checkProtocolCompatibility sv f =
      (if fa ≠ sv.1 then
         some "Protocol major version mismatch between frontend and backend"
       else if sv.2.1 < fb then
         some "Frontend uses a newer protocol version; consider updating the backend"
       else if fb < sv.2.1 then
         some "Backend uses a newer protocol version; consider updating the frontend"
       else none) := by
    unfold checkProtocolCompatibility
    rw [hp]
  rw [hcheck]
  refine ⟨fun he => ?_, fun hne => ?_, fun hM hm => ?_, fun hnew => ?_⟩
  · obtain rfl : sv = (fa, fb, fc) := he.symm
    simp
  · refine ⟨_, if_pos hne, by decide⟩
  · replace hM : fa = sv.1 := hM
    replace hm : fb ≠ sv.2.1 := hm
    have hM' : ¬ fa ≠ sv.1 := by omega
    rcases Nat.lt_or_ge sv.2.1 fb with h | h
    · simp [hM', h]
    · have h' : fb < sv.2.1 := by omega
      have h'' : ¬ sv.2.1 < fb := by omega
      simp [hM', h'', h']
  · rcases hnew with h | ⟨h1, h2⟩
    · have hne : fa ≠ sv.1 := by omega
      simp [hne]
    · replace h1 : fa = sv.1 := h1
      replace h2 : sv.2.1 < fb := h2
      by_cases hne : fa ≠ sv.1
      · simp [hne]
      · simp [hne, h2]

/-- Witness for C9: against server version 1.0.0, the frontend strings
"1.0.0", "2.0.0" and "1.1.0" behave as claimed. -/
theorem protocol_version_compatibility_witness :
    checkProtocolCompatibility (1, 0, 0) "1.0.0" = none
  ∧ (∃ w, checkProtocolCompatibility (1, 0, 0) "2.0.0" = some w ∧
       containsCI "major version".toList w.toList = true)
  ∧ (checkProtocolCompatibility (1, 0, 0) "1.1.0").isSome = true := by
  refine ⟨?_, ?_, ?_⟩
  · exact (protocol_version_compatibility (1, 0, 0) (1, 0, 0) "1.0.0" (by decide)).1 rfl
  · exact (protocol_version_compatibility (1, 0, 0) (2, 0, 0) "2.0.0" (by decide)).2.1
      (by decide)
  · exact (protocol_version_compatibility (1, 0, 0) (1, 1, 0) "1.1.0" (by decide)).2.2.1
      rfl (by decide)

/- ## C4 -/

/-- A single pool operation never touches the closed-handles log. -/
theorem applyOp_closedLog (s : PoolState) (op : PoolOp) :
    (applyOp s op).closedLog = s.closedLog := by
  cases op with
  | get k =>
    show (getClient k s).2.closedLog = s.closedLog
    unfold getClient
    cases lookupPool k s.clients <;> rfl
  | remove k => rfl
  | closeAllOp => rfl

/-- No sequence of pool operations ever touches the closed-handles log. -/
theorem runOps_closedLog (ops : List PoolOp) (s : PoolState) :
    (runOps s ops).closedLog = s.closedLog := by
  induction ops generalizing s with
  | nil => rfl
  | cons op rest ih => rw [runOps, ih, applyOp_closedLog]

/-- C4: no Client Resource Pool operation ever invokes a per-handle close
routine — across any sequence of `getClient` (including evicting inserts),
`removeClient` and `closeAll` operations the closed-handles log never grows;
`removeClient` is idempotent and total (no error on an absent key); and
`closeAll` clears every entry while itself calling no close routine. -/
theorem pool_never_closes_handles (s : PoolState) (ops : List PoolOp) (k : String) :
    (runOps s ops).closedLog = s.closedLog
  ∧ removeClient k (removeClient k s) = removeClient k s
  ∧ (closeAll s).clients = [] ∧ (closeAll s).closedLog = s.closedLog := by
  refine ⟨runOps_closedLog ops s, ?_, rfl, rfl⟩
  unfold removeClient removeKey
  cases s with
  | mk clients closedLog creations =>
    simp [List.filter_filter]

/- ## C2 -/

/-- Absence of a key survives `removeClient` of any key. -/
theorem lookupPool_removeKey_of_none (k k' : String) (l : List (String × Nat))
    (h : lookupPool k l = none) : lookupPool k (removeKey k' l) = none := by
  induction l with
  | nil => rfl
  | cons e rest ih =>
    unfold lookupPool at h
    by_cases he : e.1 = k
    · simp [he] at h
    · unfold removeKey at *
      by_cases hk' : e.1 != k'
      · obtain ⟨e1, e2⟩ := e
        simp only [List.filter_cons]
        simp only [hk', if_true]
        unfold lookupPool
        simp only [he, if_neg he] at h ⊢
        exact ih (by simpa [lookupPool, he] using h)
      · simp only [List.filter_cons, hk', if_false]
        exact ih (by simpa [lookupPool, he] using h)

/-- `removeClient k` removes every entry for `k`. -/
theorem lookupPool_removeKey_self (k : String) (l : List (String × Nat)) :
    lookupPool k (removeKey k l) = none := by
  induction l with
  | nil => rfl
  | cons e rest ih =>
    unfold removeKey at *
    by_cases hk : e.1 != k
    · have hne : e.1 ≠ k := by simpa using hk
      simp only [List.filter_cons, hk, if_true]
      unfold lookupPool
      simp [hne, ih]
    · simp only [List.filter_cons, hk, if_false]
      exact ih

/-- The fold of per-failure `removeClient` calls in a parallel phase preserves
the absence of a key. -/
theorem phaseFold_preserves_absent (ps : List (String × CallOutcome))
    (pool : PoolState) (k : String) (h : lookupPool k pool.clients = none) :
    lookupPool k (ps.foldl
      (fun acc p => match p.2 with
                    | .err _ => removeClient p.1 acc
                    | .ok _ => acc) pool).clients = none := by
  induction ps generalizing pool with
  | nil => exact h
  | cons p rest ih =>
    rw [List.foldl_cons]
    cases hp : p.2 with
    | ok c => exact ih pool h
    | err m =>
      exact ih (removeClient p.1 pool) (lookupPool_removeKey_of_none k p.1 _ h)

/-- C2: a parallel phase yields exactly one result per participant; a failing
participant's output is the `"[Error: <message>]"` placeholder with the
message truncated to at most 500 characters and its pool entry is removed via
`removeClient`; successful participants' outputs are unchanged; and no close
routine is invoked on any handle in the process. -/
theorem parallel_phase_failure_containment
    (ps : List (String × CallOutcome)) (pool : PoolState) :
    ((runParallelPhase ps pool).1.length = ps.length)
  ∧ (∀ i name m, ps.get? i = some (name, .err m) →
       (runParallelPhase ps pool).1.get? i = some (name, errorPlaceholder m)
       ∧ errorPlaceholder m
           = "[Error: ".toList ++ m.take ERROR_MESSAGE_MAX_LENGTH ++ "]".toList
       ∧ (m.take ERROR_MESSAGE_MAX_LENGTH).length ≤ 500
       ∧ lookupPool name (runParallelPhase ps pool).2.clients = none)
  ∧ (∀ i name c, ps.get? i = some (name, .ok c) →
       (runParallelPhase ps pool).1.get? i = some (name, c))
  ∧ ((runParallelPhase ps pool).2.closedLog = pool.closedLog) := by
  refine ⟨by simp [runParallelPhase], fun i name m hget => ?_,
    fun i name c hget => ?_, ?_⟩
  · refine ⟨?_, rfl, ?_, ?_⟩
    · show (List.map _ ps).get? i = _
      rw [List.get?_map, hget]
      rfl
    · simpa [ERROR_MESSAGE_MAX_LENGTH] using List.length_take_le 500 m
    · show lookupPool name (List.foldl _ pool ps).clients = none
      have hmem : (name, CallOutcome.err m) ∈ ps := List.get?_mem hget
      clear hget
      induction ps generalizing pool with
      | nil => simp at hmem
      | cons p rest ih =>
        rw [List.foldl_cons]
        rcases List.mem_cons.mp hmem with heq | hmem'
        · subst heq
          exact phaseFold_preserves_absent rest _ name
            (lookupPool_removeKey_self name pool.clients)
        · cases p.2 with
          | ok c => exact ih pool hmem'
          | err m' => exact ih (removeClient p.1 pool) hmem'
  · show (List.map _ ps).get? i = _
    rw [List.get?_map, hget]
    rfl
  · show (List.foldl _ pool ps).closedLog = pool.closedLog
    induction ps generalizing pool with
    | nil => rfl
    | cons p rest ih =>
      rw [List.foldl_cons]
      cases p.2 with
      | ok c => exact ih pool
      | err m => exact ih (removeClient p.1 pool)

/-- Witness for C2: a three-participant phase with one failing call keeps the
other two results, substitutes the bounded placeholder, and removes only the
failing participant's pool entry — with nothing ever closed. -/
theorem parallel_phase_failure_containment_witness :
    (runParallelPhase
       [("gpt_4", .ok "Good answer".toList),
        ("claude_sonnet", .err "API rate limit exceeded".toList),
        ("gemini", .ok "Fine".toList)]
       { clients := [("gpt_4", 0), ("claude_sonnet", 1), ("gemini", 2)],
         closedLog := [], creations := 3 }).1.get? 1
      = some ("claude_sonnet", "[Error: API rate limit exceeded]".toList)
  ∧ lookupPool "claude_sonnet"
      (runParallelPhase
        [("gpt_4", .ok "Good answer".toList),
         ("claude_sonnet", .err "API rate limit exceeded".toList),
         ("gemini", .ok "Fine".toList)]
        { clients := [("gpt_4", 0), ("claude_sonnet", 1), ("gemini", 2)],
          closedLog := [], creations := 3 }).2.clients = none := by
  have h := parallel_phase_failure_containment
    [("gpt_4", .ok "Good answer".toList),
     ("claude_sonnet", .err "API rate limit exceeded".toList),
     ("gemini", .ok "Fine".toList)]
    { clients := [("gpt_4", 0), ("claude_sonnet", 1), ("gemini", 2)],
      closedLog := [], creations := 3 }
  obtain ⟨hres, heq, hlen, hpool⟩ := h.2.1 1 "claude_sonnet"
    "API rate limit exceeded".toList rfl
  exact ⟨by rw [hres]; rfl, hpool⟩

/- ## C8 -/

/-- If no pattern matches at the head, `tryPats` fails. -/
theorem tryPats_eq_none (pats : List (List Char)) (s : List Char)
    (h : ∀ p ∈ pats, matchCI p s = false) : tryPats pats s = none := by
  induction pats with
  | nil => rfl
  | cons p ps ih =>
    unfold tryPats
    rw [h p (List.mem_cons_self p ps)]
    exact ih fun q hq => h q (List.mem_cons_of_mem p hq)

/-- A label that occurs nowhere in the text never matches during the scan, so
the field search fails. -/
theorem searchField_eq_none (pats stops : List (List Char)) (s : List Char)
    (h : ∀ p ∈ pats, containsCI p s = false) :
    searchField pats stops s = none := by
  induction s with
  | nil => rfl
  | cons c rest ih =>
    have hsplit : ∀ p ∈ pats, matchCI p (c :: rest) = false ∧ containsCI p rest = false := by
      intro p hp
      have := h p hp
      unfold containsCI at this
      exact Bool.or_eq_false_iff.mp this
    unfold searchField
    rw [tryPats_eq_none pats (c :: rest) (fun p hp => (hsplit p hp).1)]
    exact ih fun p hp => (hsplit p hp).2

/-- If `CONFIDENCE:` occurs nowhere in the text, the confidence scan fails. -/
theorem searchConfidence_eq_none (s : List Char)
    (h : containsCI "confidence:".toList s = false) :
    searchConfidence s = none := by
  induction s with
  | nil => rfl
  | cons c rest ih =>
    unfold containsCI at h
    obtain ⟨h1, h2⟩ := Bool.or_eq_false_iff.mp h
    unfold searchConfidence
    rw [h1]
    exact ih h2

/-- The confidence scan only ever produces one of the three canonical
values. -/
theorem searchConfidence_mem (s : List Char) (v : List Char)
    (h : searchConfidence s = some v) :
    v = "HIGH".toList ∨ v = "MEDIUM".toList ∨ v = "LOW".toList := by
  induction s with
  | nil => exact absurd h (by simp [searchConfidence])
  | cons c rest ih =>
    unfold searchConfidence at h
    by_cases hc : matchCI "confidence:".toList (c :: rest) = true
    · rw [if_pos hc] at h
      set body := ((c :: rest).drop "confidence:".toList.length).dropWhile isSpaceChar with hb
      by_cases h1 : matchCI "high".toList body = true
      · rw [if_pos h1] at h
        exact Or.inl (Option.some.inj h).symm
      · rw [if_neg h1] at h
        by_cases h2 : matchCI "medium".toList body = true
        · rw [if_pos h2] at h
          exact Or.inr (Or.inl (Option.some.inj h).symm)
        · rw [if_neg h2] at h
          by_cases h3 : matchCI "low".toList body = true
          · rw [if_pos h3] at h
            exact Or.inr (Or.inr (Option.some.inj h).symm)
          · rw [if_neg h3] at h
            exact ih h
    · rw [if_neg hc] at h
      exact ih h

/-- C8: each free-text parser falls back to the raw text when none of its
section labels occurs anywhere in the input — `parse_critique` puts the whole
content in `agreements`, `parse_final_position` puts it in `position` with
confidence `MEDIUM`, and `parse_synthesis` puts it in `synthesis` — the
confidence produced by `parse_final_position` is always one of
HIGH/MEDIUM/LOW — and it is exactly `MEDIUM` whenever the `CONFIDENCE:` label
is absent from the text, and more generally whenever the confidence scan finds
no recognized HIGH/MEDIUM/LOW value after any occurrence of the label (label
absent or value unrecognized). -/
theorem parser_fallback_contract (src content : List Char) :
    ((containsCI "agreements:".toList content = false
      ∧ containsCI "agreement:".toList content = false
      ∧ containsCI "disagreements:".toList content = false
      ∧ containsCI "disagreement:".toList content = false
      ∧ containsCI "missing:".toList content = false) →
      parse_critique src content =
        { source := src, agreements := content, disagreements := [], missing := [] })
  ∧ ((containsCI "position:".toList content = false
      ∧ containsCI "confidence:".toList content = false) →
      parse_final_position src content =
        { source := src, position := content, confidence := "MEDIUM".toList })
  ∧ ((containsCI "consensus:".toList content = false
      ∧ containsCI "synthesis:".toList content = false
      ∧ containsCI "differences:".toList content = false) →
      parse_synthesis content src =
        { consensus := [], synthesis := content, differences := [],
          synthesizer_model := src })
  ∧ (∀ c2 : List Char, (parse_final_position src c2).confidence = "HIGH".toList
       ∨ (parse_final_position src c2).confidence = "MEDIUM".toList
       ∨ (parse_final_position src c2).confidence = "LOW".toList)
  ∧ (∀ c2 : List Char, containsCI "confidence:".toList c2 = false →
       (parse_final_position src c2).confidence = "MEDIUM".toList)
  ∧ (∀ c2 : List Char, searchConfidence c2 = none →
       (parse_final_position src c2).confidence = "MEDIUM".toList) := by
  refine ⟨fun ⟨h1, h2, h3, h4, h5⟩ => ?_, fun ⟨h6, h7⟩ => ?_,
    fun ⟨h8, h9, h10⟩ => ?_, fun c2 => ?_, fun c2 habs => ?_, fun c2 hnone => ?_⟩
  · have e1 : searchField agreementsPats agreementsStops content = none :=
      searchField_eq_none _ _ _ (by
        intro p hp
        simp only [agreementsPats, List.mem_cons, List.not_mem_nil, or_false] at hp
        rcases hp with rfl | rfl <;> assumption)
    have e2 : searchField disagreementsPats disagreementsStops content = none :=
      searchField_eq_none _ _ _ (by
        intro p hp
        simp only [disagreementsPats, List.mem_cons, List.not_mem_nil, or_false] at hp
        rcases hp with rfl | rfl <;> assumption)
    have e3 : searchField missingPats missingStops content = none :=
      searchField_eq_none _ _ _ (by
        intro p hp
        simp only [missingPats, List.mem_cons, List.not_mem_nil, or_false] at hp
        rcases hp with rfl <;> assumption)
    unfold parse_critique
    rw [e1, e2, e3]
    rfl
  · have e1 : searchField ["position:".toList] ["confidence:".toList] content = none :=
      searchField_eq_none _ _ _ (by
        intro p hp
        simp only [List.mem_cons, List.not_mem_nil, or_false] at hp
        rcases hp with rfl <;> assumption)
    have e2 : searchConfidence content = none := searchConfidence_eq_none content h7
    unfold parse_final_position
    rw [e1, e2]
    rfl
  · have e1 : searchField ["consensus:".toList]
        ["synthesis:".toList, "differences:".toList] content = none :=
      searchField_eq_none _ _ _ (by
        intro p hp
        simp only [List.mem_cons, List.not_mem_nil, or_false] at hp
        rcases hp with rfl <;> assumption)
    have e2 : searchField ["synthesis:".toList]
        ["consensus:".toList, "differences:".toList] content = none :=
      searchField_eq_none _ _ _ (by
        intro p hp
        simp only [List.mem_cons, List.not_mem_nil, or_false] at hp
        rcases hp with rfl <;> assumption)
    have e3 : searchField ["differences:".toList]
        ["consensus:".toList, "synthesis:".toList] content = none :=
      searchField_eq_none _ _ _ (by
        intro p hp
        simp only [List.mem_cons, List.not_mem_nil, or_false] at hp
        rcases hp with rfl <;> assumption)
    unfold parse_synthesis
    rw [e1, e2, e3]
    rfl
  · have hconf : (parse_final_position src c2).confidence
        = (searchConfidence c2).getD "MEDIUM".toList := rfl
    rw [hconf]
    cases hc : searchConfidence c2 with
    | none => exact Or.inr (Or.inl rfl)
    | some v =>
      rcases searchConfidence_mem c2 v hc with h | h | h
      · exact Or.inl (by rw [Option.getD_some, h])
      · exact Or.inr (Or.inl (by rw [Option.getD_some, h]))
      · exact Or.inr (Or.inr (by rw [Option.getD_some, h]))
  · have hconf : (parse_final_position src c2).confidence
        = (searchConfidence c2).getD "MEDIUM".toList := rfl
    rw [hconf, searchConfidence_eq_none c2 habs]
    rfl
  · have hconf : (parse_final_position src c2).confidence
        = (searchConfidence c2).getD "MEDIUM".toList := rfl
    rw [hconf, hnone]
    rfl

/-- Witness for C8: an unstructured text falls back verbatim in all three
parsers, and an unrecognized confidence value defaults to MEDIUM. -/
theorem parser_fallback_contract_witness :
    parse_critique "agent".toList "Just some random text.".toList
      = { source := "agent".toList, agreements := "Just some random text.".toList,
          disagreements := [], missing := [] }
  ∧ parse_final_position "agent".toList "Just some random text.".toList
      = { source := "agent".toList, position := "Just some random text.".toList,
          confidence := "MEDIUM".toList }
  ∧ (parse_synthesis "Just some random text.".toList "agent".toList).synthesis
      = "Just some random text.".toList
  ∧ (parse_final_position "agent".toList
        "POSITION: X\nCONFIDENCE: VERY_HIGH".toList).confidence = "MEDIUM".toList
  ∧ (parse_final_position "agent".toList
        "POSITION: X\nCONFIDENCE: HIGH".toList).confidence = "HIGH".toList := by
  have h := parser_fallback_contract "agent".toList "Just some random text.".toList
  refine ⟨h.1 (by decide), h.2.1 (by decide), ?_, ?_, ?_⟩
  · rw [h.2.2.1 (by decide)]
  · exact h.2.2.2.2.2 "POSITION: X\nCONFIDENCE: VERY_HIGH".toList (by decide)
  · rcases h.2.2.2.1 "POSITION: X\nCONFIDENCE: HIGH".toList with hc | hc | hc
    · exact hc
    · exact absurd hc (by decide)
    · exact absurd hc (by decide)

/- ## C5 -/

/-- Updating an occupied position makes lookup return the new value. -/
theorem get?_set_same {α : Type} (l : List α) (i : Nat) (a b : α)
    (h : l.get? i = some b) : (l.set i a).get? i = some a := by
  rw [List.get?_set_eq, h]
  rfl

/-- The invariant holds initially: the key is absent, nothing was created, and
every caller is at `start`. -/
theorem sfinv_init (n : Nat) : SFInv (initSF n) := by
  refine ⟨fun _ i => ?_, fun i j hi _ => ?_, fun ⟨i, hi⟩ => ?_,
    Or.inl ⟨rfl, rfl⟩, fun i h hi => ?_⟩
  · intro hcontra
    rw [show (initSF n).pcs = List.replicate n .start from rfl,
      List.get?_eq_getElem?, List.getElem?_replicate] at hcontra
    by_cases hlt : i < n
    · rw [if_pos hlt] at hcontra
      cases hcontra
    · rw [if_neg hlt] at hcontra
      cases hcontra
  · exfalso
    rw [show (initSF n).pcs = List.replicate n .start from rfl,
      List.get?_eq_getElem?, List.getElem?_replicate] at hi
    by_cases hlt : i < n
    · rw [if_pos hlt] at hi
      cases hi
    · rw [if_neg hlt] at hi
      cases hi
  · exfalso
    rw [show (initSF n).pcs = List.replicate n .start from rfl,
      List.get?_eq_getElem?, List.getElem?_replicate] at hi
    by_cases hlt : i < n
    · rw [if_pos hlt] at hi
      cases hi
    · rw [if_neg hlt] at hi
      cases hi
  · exfalso
    rw [show (initSF n).pcs = List.replicate n .start from rfl,
      List.get?_eq_getElem?, List.getElem?_replicate] at hi
    by_cases hlt : i < n
    · rw [if_pos hlt] at hi
      cases hi
    · rw [if_neg hlt] at hi
      cases hi

/-- Every step of the single-flight protocol preserves the invariant. -/
theorem sfinv_step (s s' : SFState) (hstep : SFStep s s') (inv : SFInv s) :
    SFInv s' := by
  obtain ⟨noCr, uniqCr, crEntry, created, doneOK⟩ := inv
  cases hstep with
  | hit i h hi he =>
    have h0 : h = 0 := by
      rcases created with ⟨he', _⟩ | ⟨he', _⟩
      · rw [he'] at he
        cases he
      · rw [he'] at he
        exact (Option.some.inj he).symm
    subst h0
    refine ⟨fun hf j hj => ?_, fun j l hj hl => ?_, fun ⟨j, hj⟩ => ?_,
      created, fun j h' hj => ?_⟩
    · by_cases hij : i = j
      · subst hij
        rw [get?_set_same _ _ _ _ hi] at hj
        cases hj
      · rw [List.get?_set_ne _ _ hij] at hj
        exact noCr hf j hj
    · have hji : j ≠ i := by
        intro hji
        subst hji
        rw [get?_set_same _ _ _ _ hi] at hj
        cases hj
      have hli : l ≠ i := by
        intro hli
        subst hli
        rw [get?_set_same _ _ _ _ hi] at hl
        cases hl
      rw [List.get?_set_ne _ _ (fun hc => hji hc.symm)] at hj
      rw [List.get?_set_ne _ _ (fun hc => hli hc.symm)] at hl
      exact uniqCr j l hj hl
    · have hji : j ≠ i := by
        intro hji
        subst hji
        rw [get?_set_same _ _ _ _ hi] at hj
        cases hj
      rw [List.get?_set_ne _ _ (fun hc => hji hc.symm)] at hj
      have hent : s.entry = none := crEntry ⟨j, hj⟩
      rw [hent] at he
      cases he
    · by_cases hij : i = j
      · subst hij
        rw [get?_set_same _ _ _ _ hi] at hj
        have hdd := Option.some.inj hj
        have hh : (0 : Nat) = h' := by injection hdd
        exact ⟨hh.symm, he⟩
      · rw [List.get?_set_ne _ _ hij] at hj
        exact doneOK j h' hj
  | claim i hi he hf =>
    refine ⟨fun hcontra _ _ => by simp at hcontra,
      fun j l hj hl => ?_, fun _ => he, created, fun j h' hj => ?_⟩
    · by_cases hji : j = i
      · by_cases hli : l = i
        · rw [hji, hli]
        · exfalso
          rw [List.get?_set_ne _ _ (fun hc => hli hc.symm)] at hl
          exact noCr hf l hl
      · exfalso
        rw [List.get?_set_ne _ _ (fun hc => hji hc.symm)] at hj
        exact noCr hf j hj
    · have hji : j ≠ i := by
        intro hji
        subst hji
        rw [get?_set_same _ _ _ _ hi] at hj
        cases hj
      rw [List.get?_set_ne _ _ (fun hc => hji hc.symm)] at hj
      have h2 := (doneOK j h' hj).2
      rw [he] at h2
      cases h2
  | create i hi =>
    have hentry : s.entry = none := crEntry ⟨i, hi⟩
    have hc0 : s.creations = 0 := by
      rcases created with ⟨_, hc⟩ | ⟨he', _⟩
      · exact hc
      · rw [hentry] at he'
        cases he'
    refine ⟨fun _ j hj => ?_, fun j l hj hl => ?_, fun ⟨j, hj⟩ => ?_, ?_,
      fun j h' hj => ?_⟩
    · by_cases hij : i = j
      · subst hij
        rw [get?_set_same _ _ _ _ hi] at hj
        cases hj
      · rw [List.get?_set_ne _ _ hij] at hj
        exact absurd (uniqCr j i hj hi).symm hij
    · exfalso
      by_cases hji : j = i
      · subst hji
        rw [get?_set_same _ _ _ _ hi] at hj
        cases hj
      · rw [List.get?_set_ne _ _ (fun hc => hji hc.symm)] at hj
        exact hji (uniqCr j i hj hi)
    · exfalso
      by_cases hji : j = i
      · subst hji
        rw [get?_set_same _ _ _ _ hi] at hj
        cases hj
      · rw [List.get?_set_ne _ _ (fun hc => hji hc.symm)] at hj
        exact hji (uniqCr j i hj hi)
    · refine Or.inr ⟨?_, ?_⟩
      · show some s.creations = some 0
        rw [hc0]
      · show s.creations + 1 = 1
        omega
    · by_cases hij : i = j
      · subst hij
        rw [get?_set_same _ _ _ _ hi] at hj
        have hdd := Option.some.inj hj
        have hh : s.creations = h' := by injection hdd
        constructor
        · omega
        · show some s.creations = some 0
          rw [hc0]
      · rw [List.get?_set_ne _ _ hij] at hj
        have h2 := (doneOK j h' hj).2
        rw [hentry] at h2
        cases h2

/-- Every state reachable from the initial single-flight state satisfies the
invariant. -/
theorem sfreach_inv (n : Nat) (s : SFState) (h : SFReach n s) : SFInv s := by
  induction h with
  | refl => exact sfinv_init n
  | tail _ hstep ih => exact sfinv_step _ _ hstep ih

/-- C5: `getClient` on a present key returns the existing handle with no new
creation; and in the single-flight protocol, any number of concurrent callers
for the same absent key observe at most one creation in every reachable state,
every finished caller received the one created handle, and once all callers
have finished exactly one creation has happened. -/
theorem get_client_single_flight :
    (∀ (k : String) (s : PoolState) (h : Nat),
       lookupPool k s.clients = some h →
       (getClient k s).1 = h ∧ (getClient k s).2.creations = s.creations)
  ∧ (∀ (n : Nat) (s : SFState), SFReach n s →
       s.creations ≤ 1
       ∧ (∀ i h, s.pcs.get? i = some (.done h) → h = 0)
       ∧ (0 < n → (∀ i, i < n → ∃ h, s.pcs.get? i = some (.done h)) →
            s.creations = 1)) := by
  constructor
  · intro k s h hl
    unfold getClient
    rw [hl]
    exact ⟨rfl, rfl⟩
  · intro n s hreach
    obtain ⟨noCr, uniqCr, crEntry, created, doneOK⟩ := sfreach_inv n s hreach
    refine ⟨?_, fun i h hdone => (doneOK i h hdone).1, fun hn hall => ?_⟩
    · rcases created with ⟨_, hc⟩ | ⟨_, hc⟩ <;> omega
    · obtain ⟨h0, hd0⟩ := hall 0 hn
      have hent := (doneOK 0 h0 hd0).2
      rcases created with ⟨he, _⟩ | ⟨_, hc⟩
      · rw [he] at hent
        cases hent
      · exact hc

/-- Intermediate state of the two-caller demonstration run: caller 0 has
claimed the in-flight marker. -/
def sfS1 : SFState :=
  { entry := none, inflight := true, creations := 0, pcs := [.creating, .start] }

/-- Intermediate state: caller 0 created handle 0 and finished. -/
def sfS2 : SFState :=
  { entry := some 0, inflight := false, creations := 1, pcs := [.done 0, .start] }

/-- Final state: caller 1 found the entry and finished with the same handle. -/
def sfS3 : SFState :=
  { entry := some 0, inflight := false, creations := 1, pcs := [.done 0, .done 0] }

/-- Witness for C5: a pool hit returns the stored handle without creating, and
a complete two-caller single-flight run ends with exactly one creation and
both callers holding handle 0. -/
theorem get_client_single_flight_witness :
    (getClient "gpt-4o" { clients := [("gpt-4o", 5)], closedLog := [], creations := 7 }).1 = 5
  ∧ (getClient "gpt-4o" { clients := [("gpt-4o", 5)], closedLog := [], creations := 7 }).2.creations = 7
  ∧ sfS3.creations = 1
  ∧ (∀ i h, sfS3.pcs.get? i = some (.done h) → h = 0) := by
  have step1 : SFStep (initSF 2) sfS1 :=
    SFStep.claim (initSF 2) 0 (by decide) rfl rfl
  have step2 : SFStep sfS1 sfS2 := SFStep.create sfS1 0 (by decide)
  have step3 : SFStep sfS2 sfS3 := SFStep.hit sfS2 1 0 (by decide) rfl
  have hreach : SFReach 2 sfS3 :=
    ((Relation.ReflTransGen.refl.tail step1).tail step2).tail step3
  have hpool := get_client_single_flight.1 "gpt-4o"
    { clients := [("gpt-4o", 5)], closedLog := [], creations := 7 } 5 rfl
  have hsf := get_client_single_flight.2 2 sfS3 hreach
  refine ⟨hpool.1, hpool.2, ?_, hsf.2.1⟩
  refine hsf.2.2 (by decide) ?_
  intro i hi
  interval_cases i
  · exact ⟨0, rfl⟩
  · exact ⟨0, rfl⟩

/- ## C1 -/

/-- C1: a `run_discussion` request while the mutex is held is rejected with
application error `-32000` whose message contains "already in progress" and
changes no state; an admitted discussion releases the mutex whatever the exit
path (the stream may end normally, raise, or be forcibly cancelled — all are
covered by the quantification over streams); and immediately after a
discussion ends — by success, error, or cancellation — a second
`run_discussion` is admitted rather than rejected. -/
theorem discussion_mutex_release (st : SessionState) (pt pt2 : Nat)
    (w w2 : Nat → WaitOutcome) (stream stream2 : List StreamItem) :
    (st.busy = true →
       run_discussion st pt w stream =
         (.rejected { code := -32000, message := "Discussion already in progress" }, st)
       ∧ containsCI "already in progress".toList
           "Discussion already in progress".toList = true)
  ∧ (st.busy = false → (run_discussion st pt w stream).2.busy = false)
  ∧ (st.busy = false →
       ∃ ns oc, (run_discussion (run_discussion st pt w stream).2 pt2 w2 stream2).1
         = RunResult.finished ns oc) := by
  refine ⟨fun hb => ⟨?_, by decide⟩, fun hb => ?_, fun hb => ?_⟩
  · unfold run_discussion
    rw [if_pos hb]
  · unfold run_discussion
    rw [if_neg (by simp [hb])]
  · have h2 : (run_discussion st pt w stream).2.busy = false := by
      unfold run_discussion
      rw [if_neg (by simp [hb])]
    set st1 := (run_discussion st pt w stream).2 with hst1
    refine ⟨(consumeLoop pt2 w2 stream2 0 0).1, (consumeLoop pt2 w2 stream2 0 0).2, ?_⟩
    unfold run_discussion
    rw [if_neg (by simp [h2])]

/-- Witness for C1: a busy handler rejects with the `-32000` error; an
erroring stream and a forcibly cancelled stream both leave the mutex released,
and a follow-up request is admitted. -/
theorem discussion_mutex_release_witness :
    run_discussion { busy := true, cancelRequested := false, pauseSet := true } 5
        (fun _ => .resumed) [] =
      (.rejected { code := -32000, message := "Discussion already in progress" },
       { busy := true, cancelRequested := false, pauseSet := true })
  ∧ (run_discussion { busy := false, cancelRequested := false, pauseSet := true } 5
        (fun _ => .resumed) [.exn "boom"]).2.busy = false
  ∧ (∃ ns oc, (run_discussion
        (run_discussion { busy := false, cancelRequested := false, pauseSet := true } 5
          (fun _ => .resumed) [.taskCancelled]).2 5 (fun _ => .resumed)
        [.ev (.content "x")]).1 = RunResult.finished ns oc) := by
  have h1 := discussion_mutex_release ⟨true, false, true⟩ 5 5
    (fun _ => .resumed) (fun _ => .resumed) [] []
  have h2 := discussion_mutex_release ⟨false, false, true⟩ 5 5
    (fun _ => .resumed) (fun _ => .resumed) [.exn "boom"] []
  have h3 := discussion_mutex_release ⟨false, false, true⟩ 5 5
    (fun _ => .resumed) (fun _ => .resumed) [.taskCancelled] [.ev (.content "x")]
  exact ⟨(h1.1 rfl).1, h2.2.1 rfl, h3.2.2 rfl⟩

/- ## C3 -/

/-- Number of pause-timeout notifications in an event list. -/
def countPauseTimeouts : List Notif → Nat
  | [] => 0
  | .pauseTimeout _ :: rest => countPauseTimeouts rest + 1
  | _ :: rest => countPauseTimeouts rest

/-- A relayed event is not a pause-timeout notification. -/
theorem countPauseTimeouts_relayed (e : DEvent) (l : List Notif) :
    countPauseTimeouts (.relayed e :: l) = countPauseTimeouts l := rfl

/-- A phase-boundary notification is not a pause-timeout notification. -/
theorem countPauseTimeouts_boundary (p : Nat) (l : List Notif) :
    countPauseTimeouts (.phaseBoundary p :: l) = countPauseTimeouts l := rfl

/-- A pause-timeout notification is counted. -/
theorem countPauseTimeouts_pt (sec : Nat) (l : List Notif) :
    countPauseTimeouts (.pauseTimeout sec :: l) = countPauseTimeouts l + 1 := rfl

/-- Boundary count at a phase marker. -/
theorem countBoundaries_marker (p t : Nat) (l : List StreamItem) :
    countBoundaries (.ev (.marker p t) :: l)
      = (if p < t then 1 else 0) + countBoundaries l := rfl

/-- Boundary count at a content event. -/
theorem countBoundaries_content (txt : String) (l : List StreamItem) :
    countBoundaries (.ev (.content txt) :: l) = countBoundaries l := rfl

/-- Consumption of a pure event stream with every pause wait timing out:
the discussion completes, one pause-timeout notification is emitted per
non-final phase boundary, each carries the configured timeout, and a completed
notification is emitted. -/
theorem consumeLoop_all_timeout (pt : Nat) (stream : List StreamItem)
    (h : isPureEvents stream = true) :
    ∀ count widx,
    (consumeLoop pt (fun _ => .timedOut) stream count widx).2 = .completed
    ∧ countPauseTimeouts (consumeLoop pt (fun _ => .timedOut) stream count widx).1
        = countBoundaries stream
    ∧ (∀ sec, Notif.pauseTimeout sec
        ∈ (consumeLoop pt (fun _ => .timedOut) stream count widx).1 → sec = pt)
    ∧ (∃ c, Notif.completed c
        ∈ (consumeLoop pt (fun _ => .timedOut) stream count widx).1) := by
  induction stream with
  | nil =>
    intro count widx
    refine ⟨rfl, rfl, fun sec hmem => ?_, ⟨count, by simp [consumeLoop]⟩⟩
    simp [consumeLoop] at hmem
  | cons it rest ih =>
    intro count widx
    cases it with
    | ev e =>
      have hrest : isPureEvents rest = true := by
        simpa [isPureEvents] using h
      cases e with
      | marker p t =>
        by_cases hpt : p < t
        · obtain ⟨o1, o2, o3, o4⟩ := ih hrest (count + 1) (widx + 1)
          have heq : consumeLoop pt (fun _ => .timedOut)
              (.ev (.marker p t) :: rest) count widx
              = (Notif.relayed (.marker p t) :: Notif.phaseBoundary p ::
                  Notif.pauseTimeout pt ::
                  (consumeLoop pt (fun _ => .timedOut) rest (count + 1) (widx + 1)).1,
                 (consumeLoop pt (fun _ => .timedOut) rest (count + 1) (widx + 1)).2) := by
            simp [consumeLoop, hpt]
          rw [heq]
          refine ⟨o1, ?_, fun sec hmem => ?_, ?_⟩
          · rw [countPauseTimeouts_relayed, countPauseTimeouts_boundary,
              countPauseTimeouts_pt, o2, countBoundaries_marker, if_pos hpt]
            omega
          · rcases List.mem_cons.mp hmem with hc | hmem2
            · simp at hc
            rcases List.mem_cons.mp hmem2 with hc | hmem3
            · simp at hc
            rcases List.mem_cons.mp hmem3 with hc | hmem4
            · exact (Notif.pauseTimeout.inj hc)
            · exact o3 sec hmem4
          · obtain ⟨c, hc⟩ := o4
            exact ⟨c, by simp [hc]⟩
        · obtain ⟨o1, o2, o3, o4⟩ := ih hrest (count + 1) widx
          have heq : consumeLoop pt (fun _ => .timedOut)
              (.ev (.marker p t) :: rest) count widx
              = (Notif.relayed (.marker p t) ::
                  (consumeLoop pt (fun _ => .timedOut) rest (count + 1) widx).1,
                 (consumeLoop pt (fun _ => .timedOut) rest (count + 1) widx).2) := by
            simp [consumeLoop, hpt]
          rw [heq]
          refine ⟨o1, ?_, fun sec hmem => ?_, ?_⟩
          · rw [countPauseTimeouts_relayed, o2, countBoundaries_marker,
              if_neg hpt]
            omega
          · rcases List.mem_cons.mp hmem with hc | hmem2
            · simp at hc
            · exact o3 sec hmem2
          · obtain ⟨c, hc⟩ := o4
            exact ⟨c, by simp [hc]⟩
      | content txt =>
        obtain ⟨o1, o2, o3, o4⟩ := ih hrest (count + 1) widx
        have heq : consumeLoop pt (fun _ => .timedOut)
            (.ev (.content txt) :: rest) count widx
            = (Notif.relayed (.content txt) ::
                (consumeLoop pt (fun _ => .timedOut) rest (count + 1) widx).1,
               (consumeLoop pt (fun _ => .timedOut) rest (count + 1) widx).2) := by
          simp [consumeLoop]
        rw [heq]
        refine ⟨o1, ?_, fun sec hmem => ?_, ?_⟩
        · rw [countPauseTimeouts_relayed, o2, countBoundaries_content]
        · rcases List.mem_cons.mp hmem with hc | hmem2
          · simp at hc
          · exact o3 sec hmem2
        · obtain ⟨c, hc⟩ := o4
          exact ⟨c, by simp [hc]⟩
    | exn m => simp [isPureEvents] at h
    | taskCancelled => simp [isPureEvents] at h

/-- C3: when every pause wait at a non-final phase boundary times out (no
resume or cancel ever arrives), the controller emits exactly one pause-timeout
notification per boundary, each carrying the configured timeout duration, and
the discussion still reaches normal completion with a completed
notification — a front end that never resumes cannot hang the backend. -/
theorem pause_timeout_auto_resume (pt : Nat) (stream : List StreamItem)
    (h : isPureEvents stream = true) :
    (consumeLoop pt (fun _ => .timedOut) stream 0 0).2 = .completed
  ∧ countPauseTimeouts (consumeLoop pt (fun _ => .timedOut) stream 0 0).1
      = countBoundaries stream
  ∧ (∀ sec, Notif.pauseTimeout sec
      ∈ (consumeLoop pt (fun _ => .timedOut) stream 0 0).1 → sec = pt)
  ∧ (∃ c, Notif.completed c
      ∈ (consumeLoop pt (fun _ => .timedOut) stream 0 0).1) :=
  consumeLoop_all_timeout pt stream h 0 0

/-- A three-phase stream with two non-final phase boundaries. -/
def demoStream : List StreamItem :=
  [.ev (.marker 1 3), .ev (.content "a"), .ev (.marker 2 3),
   .ev (.content "b"), .ev (.marker 3 3), .ev (.content "c")]

/-- Witness for C3: on the three-phase stream with a tiny timeout and no
resume, the discussion completes and exactly two pause-timeout events are
emitted. -/
theorem pause_timeout_auto_resume_witness :
    (consumeLoop 1 (fun _ => .timedOut) demoStream 0 0).2 = .completed
  ∧ countPauseTimeouts (consumeLoop 1 (fun _ => .timedOut) demoStream 0 0).1 = 2 := by
  have h := pause_timeout_auto_resume 1 demoStream rfl
  refine ⟨h.1, ?_⟩
  rw [h.2.1]
  rfl

end Quorum
